import Mathlib

/-!
Verification of the knowledge-graph core of the `osint-poc` repository.

The development shallowly embeds the two graph backends of the repository:

* `Neo4jGraphService` (`app/services/graph_service.py`): the persistent
  backend.  Each Cypher statement issued by the service is embedded as an
  explicit state transformer on `N4jState`, following the semantics of the
  `MERGE` / `SET` / `MATCH` clauses the service actually uses.
* the ephemeral backend (`app/services/nlp_service.py`): an in-process
  undirected `networkx.Graph`; nodes, per-node adjacency order and edge
  attributes are embedded so that `Graph.edges` iteration order (node
  insertion order, then adjacency insertion order, each edge reported once)
  is reproduced faithfully.

Sentiment scores are Python floats that are only ever passed through, never
computed with, so all definitions are parametric in an opaque score type
`Score`.  Concrete witnesses instantiate `Score := Int`.
-/

/-! ## Pydantic schemas (`app/schemas`) -/

/-- `app/schemas/data_ingestion.py`: `Post`. -/
structure Post where
  id : String
  platform : String
  author : String
  author_id : Option String
  text : String
  timestamp : Option String
  url : Option String
deriving DecidableEq, Repr

/-- `app/schemas/analysis_result.py`: `NEREntity`. -/
structure NEREntity where
  text : String
  label : String
deriving DecidableEq, Repr

/-- `app/schemas/analysis_result.py`: `SentimentResult`;
`score` is a Python float, modelled opaquely. -/
structure SentimentResult (Score : Type) where
  label : String
  score : Score
deriving DecidableEq, Repr

/-- `app/schemas/analysis_result.py`: `PostAnalysis`. -/
structure PostAnalysis (Score : Type) where
  post_id : String
  platform : String
  author : String
  sentiment : SentimentResult Score
  entities : List NEREntity
  text : String
deriving DecidableEq, Repr

/-- `app/schemas/analysis_result.py`: `AnalysisStats`. -/
structure AnalysisStats where
  total_posts : Nat
  positive : Nat
  neutral : Nat
  negative : Nat
deriving DecidableEq, Repr

/-- `app/schemas/analysis_result.py`: `AnalysisResponse`. -/
structure AnalysisResponse (Score : Type) where
  items : List (PostAnalysis Score)
  stats : AnalysisStats
deriving DecidableEq, Repr

/-- `app/schemas/analysis_result.py`: `GraphNode`. -/
structure GraphNode where
  id : String
  label : String
  type : String
deriving DecidableEq, Repr

/-- `app/schemas/analysis_result.py`: `GraphEdge`. -/
structure GraphEdge where
  source : String
  target : String
  label : String
deriving DecidableEq, Repr

/-- `app/schemas/analysis_result.py`: `GraphResponse`. -/
structure GraphResponse where
  nodes : List GraphNode
  edges : List GraphEdge
deriving DecidableEq, Repr

/-! ## Identity key derivation

Both backends derive node keys with the same f-string formats:
`f"post:{item.post_id}"`, `f"user:{item.author}"`,
`f"platform:{item.platform}"`, `f"entity:{ent.label}:{ent.text}"`
(`graph_service.py` lines 105, 120, 134, 149; `nlp_service.py` lines
105-114). -/

def postKey (pid : String) : String := "post:" ++ pid

def userKey (author : String) : String := "user:" ++ author

def platformKey (name : String) : String := "platform:" ++ name

def entityKey (label text : String) : String := "entity:" ++ label ++ ":" ++ text

/-! ## NLP service (`app/services/nlp_service.py`)

`analyze_posts` is embedded parametrically in the sentiment analyzer and the
NER extractor: both are external collaborators (vaderSentiment / spaCy); the
loop structure, counters and item construction follow the source. -/

namespace NlpService

/-- The `PostAnalysis` record appended for one post (lines 85-94). -/
def analyzedItem {Score : Type} (sent : String → SentimentResult Score)
    (ner : String → List NEREntity) (p : Post) : PostAnalysis Score :=
  ⟨p.id, p.platform, p.author, sent p.text, ner p.text, p.text⟩

/-- One iteration of the `analyze_posts` loop: classify, bump exactly one
of the three counters (`if label is positive / elif negative / else`),
append the item. -/
def analyzeStep {Score : Type} (sent : String → SentimentResult Score)
    (ner : String → List NEREntity)
    (acc : List (PostAnalysis Score) × Nat × Nat × Nat) (p : Post) :
    List (PostAnalysis Score) × Nat × Nat × Nat :=
  let s := sent p.text
  let counts : Nat × Nat × Nat :=
    if s.label = "positive" then (acc.2.1 + 1, acc.2.2.1, acc.2.2.2)
    else if s.label = "negative" then (acc.2.1, acc.2.2.1, acc.2.2.2 + 1)
    else (acc.2.1, acc.2.2.1 + 1, acc.2.2.2)
  (acc.1 ++ [analyzedItem sent ner p], counts)

def analyze_posts {Score : Type} (sent : String → SentimentResult Score)
    (ner : String → List NEREntity) (posts : List Post) : AnalysisResponse Score :=
  ⟨(posts.foldl (analyzeStep sent ner) ([], 0, 0, 0)).1,
   ⟨posts.length,
    (posts.foldl (analyzeStep sent ner) ([], 0, 0, 0)).2.1,
    (posts.foldl (analyzeStep sent ner) ([], 0, 0, 0)).2.2.1,
    (posts.foldl (analyzeStep sent ner) ([], 0, 0, 0)).2.2.2⟩⟩

end NlpService

/-! ## Persistent backend (`app/services/graph_service.py`)

The store state is a list of nodes and a list of directed relationships.
Each Cypher statement issued by `Neo4jGraphService` is embedded as a state
transformer with the semantics of its `MERGE`/`SET`/`MATCH` clauses. -/

/-- A Neo4j node: its `id` property, its (single) node label, and the other
properties the service ever sets (`name`, `text`, `sentiment`, `score`,
`label`; absent properties are `none`). -/
structure N4jNode (Score : Type) where
  id : String
  nodeLabel : String
  name : Option String
  text : Option String
  sentiment : Option String
  score : Option Score
  entLabel : Option String
deriving DecidableEq, Repr

/-- A directed relationship, identified by start node id, end node id and
relationship type (node ids are globally unique in every reachable state). -/
structure N4jRel where
  startId : String
  endId : String
  relType : String
deriving DecidableEq, Repr

structure N4jState (Score : Type) where
  nodes : List (N4jNode Score)
  rels : List N4jRel
deriving DecidableEq, Repr

namespace Neo4jGraphService

variable {Score : Type}

def emptyState : N4jState Score := ⟨[], []⟩

def blankNode (lbl k : String) : N4jNode Score :=
  ⟨k, lbl, none, none, none, none, none⟩

/-- Whether `MATCH (x:lbl {id: k})` finds a node. -/
def hasNode (s : N4jState Score) (lbl k : String) : Prop :=
  ∃ n ∈ s.nodes, n.nodeLabel = lbl ∧ n.id = k

instance {s : N4jState Score} {lbl k : String} : Decidable (hasNode s lbl k) :=
  inferInstanceAs (Decidable (∃ n ∈ s.nodes, n.nodeLabel = lbl ∧ n.id = k))

/-- `MERGE (x:lbl {id: k})` followed by a `SET` block `upd`: the node keyed
by label and id is updated when present, created then updated otherwise
(Cypher applies the plain `SET` in both cases). -/
def mergeNode (s : N4jState Score) (lbl k : String)
    (upd : N4jNode Score → N4jNode Score) : N4jState Score :=
  if hasNode s lbl k then
    { s with nodes := (s.nodes.map
        (fun n => if n.nodeLabel = lbl ∧ n.id = k then upd n else n)) }
  else
    { s with nodes := s.nodes ++ [upd (blankNode lbl k)] }

/-- `MERGE (a)-[:typ]->(b)` with both endpoints bound: the directed
relationship is created unless it already exists. -/
def mergeRel (s : N4jState Score) (a b typ : String) : N4jState Score :=
  if (⟨a, b, typ⟩ : N4jRel) ∈ s.rels then s
  else { s with rels := s.rels ++ [⟨a, b, typ⟩] }

/-- Lines 100-109: the Post upsert statement of `build_knowledge_graph`. -/
def runPostStmt (s : N4jState Score) (it : PostAnalysis Score) : N4jState Score :=
  mergeNode s "Post" (postKey it.post_id)
    (fun n => { n with text := some it.text, sentiment := some it.sentiment.label,
                       score := some it.sentiment.score })

/-- `WITH x MATCH (p:Post {id: pk}) MERGE` of a relationship: the `MERGE`
runs only when the `MATCH` yields a row. -/
def guardedRelPost (s1 : N4jState Score) (pk a b typ : String) : N4jState Score :=
  if hasNode s1 "Post" pk then mergeRel s1 a b typ else s1

/-- Lines 111-123: User upsert, then `MATCH` the Post and `MERGE` the
`POSTED` relationship (skipped when the `MATCH` yields no row). -/
def runUserStmt (s : N4jState Score) (it : PostAnalysis Score) : N4jState Score :=
  guardedRelPost
    (mergeNode s "User" (userKey it.author) (fun n => { n with name := some it.author }))
    (postKey it.post_id) (userKey it.author) (postKey it.post_id) "POSTED"

/-- Lines 125-137: Platform upsert, then `MERGE (p)-[:ON]->(pl)`. -/
def runPlatformStmt (s : N4jState Score) (it : PostAnalysis Score) : N4jState Score :=
  guardedRelPost
    (mergeNode s "Platform" (platformKey it.platform)
      (fun n => { n with name := some it.platform }))
    (postKey it.post_id) (postKey it.post_id) (platformKey it.platform) "ON"

/-- Lines 139-153: per-entity statement, Entity upsert plus `MENTIONS`. -/
def runEntityStmt (s : N4jState Score) (pid : String) (e : NEREntity) : N4jState Score :=
  guardedRelPost
    (mergeNode s "Entity" (entityKey e.label e.text)
      (fun n => { n with text := some e.text, entLabel := some e.label }))
    (postKey pid) (postKey pid) (entityKey e.label e.text) "MENTIONS"

/-- The four statements run for one analysis item. -/
def applyItem (s : N4jState Score) (it : PostAnalysis Score) : N4jState Score :=
  it.entities.foldl (fun st e => runEntityStmt st it.post_id e)
    (runPlatformStmt (runUserStmt (runPostStmt s it) it) it)

/-- Lines 79-83: `MATCH (n) DETACH DELETE n`. -/
def clear_graph (_s : N4jState Score) : N4jState Score := emptyState

/-- Lines 86-153: clear when `clear_existing`, then ingest every item. -/
def build_knowledge_graph (s : N4jState Score) (analysis : AnalysisResponse Score)
    (clearExisting : Bool) : N4jState Score :=
  analysis.items.foldl applyItem (if clearExisting then clear_graph s else s)

/-- `COALESCE(n.name, n.text, n.id)`. -/
def displayLabel (n : N4jNode Score) : String :=
  match n.name with
  | some v => v
  | none =>
    match n.text with
    | some v => v
    | none => n.id

/-- `record["type"].lower() if record["type"] else "entity"` where `type`
is `labels(n)[0]` (an unlabelled node reads as the empty string here). -/
def snapshotType (n : N4jNode Score) : String :=
  if n.nodeLabel = "" then "entity" else n.nodeLabel.toLower

/-- Lines 156-198: full snapshot. -/
def get_graph_response (s : N4jState Score) : GraphResponse :=
  ⟨s.nodes.map (fun n => ⟨n.id, displayLabel n, snapshotType n⟩),
   s.rels.map (fun r => ⟨r.startId, r.endId, r.relType⟩)⟩

/-- Lines 200-220: `MATCH (n {id: $node_id})` point lookup; the driver's
`single()` yields the first record or `None`. -/
def get_node_by_id (s : N4jState Score) (nodeId : String) : Option GraphNode :=
  (s.nodes.find? (fun n => n.id == nodeId)).map
    (fun n => ⟨n.id, displayLabel n, n.nodeLabel.toLower⟩)

/-- The rows produced by `MATCH (n {id: $node_id})-[r]-(m)`: one row per
stored relationship adjacent to the matched node, carrying the other
endpoint and the relationship. -/
def neighborRows (s : N4jState Score) (nodeId : String) :
    List (N4jNode Score × N4jRel) :=
  if s.nodes.any (fun n => n.id == nodeId) then
    s.rels.filterMap (fun r =>
      if r.startId = nodeId then
        (s.nodes.find? (fun m => m.id == r.endId)).map (fun m => (m, r))
      else if r.endId = nodeId then
        (s.nodes.find? (fun m => m.id == r.startId)).map (fun m => (m, r))
      else none)
  else []

/-- Lines 253-265: direction resolution against the stored relationship:
`if record["rel_start"] == node_id` the edge is (queried → neighbor),
otherwise (neighbor → queried). -/
def rowEdge (nodeId : String) (m : N4jNode Score) (r : N4jRel) : GraphEdge :=
  if r.startId = nodeId then ⟨nodeId, m.id, r.relType⟩
  else ⟨m.id, nodeId, r.relType⟩

/-- Lines 222-267: neighbor expansion. -/
def get_neighbors (s : N4jState Score) (nodeId : String) : GraphResponse :=
  let center := match get_node_by_id s nodeId with
    | some c => [c]
    | none => []
  let rows := neighborRows s nodeId
  ⟨center ++ rows.map (fun p => ⟨p.1.id, displayLabel p.1, p.1.nodeLabel.toLower⟩),
   rows.map (fun p => rowEdge nodeId p.1 p.2)⟩

/-- Lines 65-70: the four uniqueness-constraint statements. -/
def initConstraintStmts : List String :=
  ["CREATE CONSTRAINT post_id IF NOT EXISTS FOR (p:Post) REQUIRE p.id IS UNIQUE",
   "CREATE CONSTRAINT user_id IF NOT EXISTS FOR (u:User) REQUIRE u.id IS UNIQUE",
   "CREATE CONSTRAINT platform_id IF NOT EXISTS FOR (pl:Platform) REQUIRE pl.id IS UNIQUE",
   "CREATE CONSTRAINT entity_id IF NOT EXISTS FOR (e:Entity) REQUIRE e.id IS UNIQUE"]

/-- Lines 62-77: each constraint statement runs inside `try ... except
Exception: pass`, so a failing statement leaves the store unchanged and the
loop continues with the next statement; no exception escapes.  The store
and the statement runner are abstract (`run` returns the failed statement's
error or the successor store). -/
def init_constraints {σ : Type} (run : String → σ → Except String σ) (s : σ) : σ :=
  initConstraintStmts.foldl
    (fun st c =>
      match run c st with
      | Except.ok st2 => st2
      | Except.error _ => st) s

/-- `app/main.py` lifespan startup: constraints are initialized only when
`verify_connectivity()` succeeds; on failure the handler logs and
continues without touching the store. -/
def lifespanStartup {σ : Type} (connected : Bool)
    (run : String → σ → Except String σ) (s : σ) : σ :=
  if connected then init_constraints run s else s

end Neo4jGraphService

/-! ## Ephemeral backend (`app/services/nlp_service.py`, `networkx.Graph`)

`nx.Graph` is undirected.  The embedding keeps node insertion order, the
per-node adjacency insertion order and the shared edge-attribute entry, so
that `Graph.nodes(data=True)` and `Graph.edges(data=True)` iteration is
reproduced exactly (edges are iterated per node in insertion order, each
edge reported from the endpoint seen first). -/

/-- The node attributes the service ever sets (`label`, `type`,
`entity_label`). -/
structure NxAttrs where
  label : Option String
  type : Option String
  entity_label : Option String
deriving DecidableEq, Repr

structure NxGraph where
  nodes : List (String × NxAttrs)
  adj : List (String × List String)
  edata : List ((String × String) × String)
deriving DecidableEq, Repr

namespace NlpService

def emptyNx : NxGraph := ⟨[], [], []⟩

def blankAttrs : NxAttrs := ⟨none, none, none⟩

/-- The adjacency list of `u` (insertion ordered, mirrored). -/
def adjList (g : NxGraph) (u : String) : List String :=
  ((g.adj.find? (fun p => p.1 == u)).map Prod.snd).getD []

def adjAppend (adj : List (String × List String)) (u v : String) :
    List (String × List String) :=
  adj.map (fun p => if p.1 = u then (p.1, p.2 ++ [v]) else p)

/-- `G.add_node(nid, **attrs)`: create the node if absent, then update the
given attribute keys (`dict.update` semantics). -/
def addNode (g : NxGraph) (nid : String) (upd : NxAttrs → NxAttrs) : NxGraph :=
  if g.nodes.any (fun p => p.1 == nid) then
    { g with nodes := (g.nodes.map (fun p => if p.1 = nid then (p.1, upd p.2) else p)) }
  else
    { g with nodes := g.nodes ++ [(nid, upd blankAttrs)], adj := g.adj ++ [(nid, [])] }

/-- `add_edge` first creates missing endpoints with no attributes. -/
def ensureNode (g : NxGraph) (nid : String) : NxGraph :=
  if g.nodes.any (fun p => p.1 == nid) then g
  else { g with nodes := g.nodes ++ [(nid, blankAttrs)], adj := g.adj ++ [(nid, [])] }

/-- `G.add_edge(u, v, label=lbl)`: undirected; a repeated `add_edge` only
updates the shared attribute entry, a new edge is appended to both
adjacency lists (once for a self-loop) and to the edge-attribute table. -/
def addEdge (g : NxGraph) (u v lbl : String) : NxGraph :=
  let g1 := ensureNode (ensureNode g u) v
  if (adjList g1 u).contains v then
    { g1 with edata := (g1.edata.map (fun e =>
        if (e.1.1 = u ∧ e.1.2 = v) ∨ (e.1.1 = v ∧ e.1.2 = u) then (e.1, lbl) else e)) }
  else
    { g1 with
        adj := (if u = v then adjAppend g1.adj u v
                else adjAppend (adjAppend g1.adj u v) v u),
        edata := g1.edata ++ [((u, v), lbl)] }

/-- The `label` entry of the shared edge-attribute dict
(`data.get("label", "")`). -/
def nxEdgeLabel (g : NxGraph) (u v : String) : String :=
  ((g.edata.find? (fun e => (e.1.1 == u && e.1.2 == v) || (e.1.1 == v && e.1.2 == u))).map
    Prod.snd).getD ""

/-- `G.edges(data=True)` iteration: nodes in insertion order; for each node
its adjacency in insertion order, skipping neighbours already exhausted. -/
def nxEdges (g : NxGraph) : List (String × String × String) :=
  (g.nodes.foldl
    (fun (acc : List String × List (String × String × String)) p =>
      (acc.1 ++ [p.1],
       acc.2 ++ (((adjList g p.1).filter (fun nbr => !acc.1.contains nbr)).map
         (fun nbr => (p.1, nbr, nxEdgeLabel g p.1 nbr)))))
    ([], [])).2

/-- `nlp_service.build_knowledge_graph` (lines 100-117): always starts from
a fresh `nx.Graph()`. -/
def build_knowledge_graph {Score : Type} (analysis : AnalysisResponse Score) : NxGraph :=
  analysis.items.foldl
    (fun g it =>
      let g1 := addNode g (postKey it.post_id)
        (fun a => { a with label := some it.post_id, type := some "post" })
      let g2 := addNode g1 (userKey it.author)
        (fun a => { a with label := some it.author, type := some "user" })
      let g3 := addNode g2 (platformKey it.platform)
        (fun a => { a with label := some it.platform, type := some "platform" })
      let g4 := addEdge g3 (userKey it.author) (postKey it.post_id) "POSTED"
      let g5 := addEdge g4 (postKey it.post_id) (platformKey it.platform) "ON"
      it.entities.foldl
        (fun gacc e =>
          let g6 := addNode gacc (entityKey e.label e.text)
            (fun a => { a with label := some e.text, type := some "entity",
                               entity_label := some e.label })
          addEdge g6 (postKey it.post_id) (entityKey e.label e.text) "MENTIONS")
        g5)
    emptyNx

/-- `nlp_service.get_graph_response` (lines 120-129): node label falls back
from the stored `label` attribute to the node id, node type from the stored
`type` attribute to `"entity"`; edges come from `G.edges(data=True)`. -/
def get_graph_response (g : NxGraph) : GraphResponse :=
  ⟨g.nodes.map (fun p => ⟨p.1, (p.2.label).getD p.1, (p.2.type).getD "entity"⟩),
   (nxEdges g).map (fun t => ⟨t.1, t.2.1, t.2.2⟩)⟩

end NlpService

/-! ## Right-biased graph union and reachable-state shape

`graphUnion s t` is the union of two stores keyed by node id, with `t`
winning on conflicting nodes (last-write-wins attribute semantics) and
relationship sets deduplicated; it is the reference against which
accumulate-mode ingestion is compared. -/

namespace Neo4jGraphService

variable {Score : Type}

def hasId (nodes : List (N4jNode Score)) (k : String) : Prop :=
  ∃ n ∈ nodes, n.id = k

instance {nodes : List (N4jNode Score)} {k : String} : Decidable (hasId nodes k) :=
  inferInstanceAs (Decidable (∃ n ∈ nodes, n.id = k))

/-- The node of `t` with the same id, if any; otherwise `n` itself. -/
def overrideNode (t : List (N4jNode Score)) (n : N4jNode Score) : N4jNode Score :=
  match t.find? (fun m => m.id == n.id) with
  | some m => m
  | none => n

def graphUnion (s t : N4jState Score) : N4jState Score :=
  ⟨s.nodes.map (overrideNode t.nodes)
     ++ t.nodes.filter (fun m => !(decide (hasId s.nodes m.id))),
   s.rels ++ t.rels.filter (fun r => !(decide (r ∈ s.rels)))⟩

/-- Shape of every node the service ever writes: the node label matches the
key prefix of its id, and only the properties set for that kind are
present. -/
def nodeWF (n : N4jNode Score) : Prop :=
  (n.nodeLabel = "Post" ∧ (∃ k, n.id = postKey k)
    ∧ n.name = none ∧ n.entLabel = none)
  ∨ (n.nodeLabel = "User" ∧ (∃ k, n.id = userKey k)
    ∧ n.text = none ∧ n.sentiment = none ∧ n.score = none ∧ n.entLabel = none)
  ∨ (n.nodeLabel = "Platform" ∧ (∃ k, n.id = platformKey k)
    ∧ n.text = none ∧ n.sentiment = none ∧ n.score = none ∧ n.entLabel = none)
  ∨ (n.nodeLabel = "Entity" ∧ (∃ l t, n.id = entityKey l t)
    ∧ n.name = none ∧ n.sentiment = none ∧ n.score = none)

/-- Reachable-store invariant: node ids are globally unique and every node
has the shape of its kind. -/
def stateWF (s : N4jState Score) : Prop :=
  s.nodes.Pairwise (fun a b => a.id ≠ b.id) ∧ ∀ n ∈ s.nodes, nodeWF n

end Neo4jGraphService

/-! ## Concrete sample data (spec §8, test 3) -/

/-- Post `p1` by `alice` on `twitter` mentioning entity `("Jakarta", "GPE")`. -/
def sampleItem : PostAnalysis Int :=
  ⟨"p1", "twitter", "alice", ⟨"positive", 1⟩, [⟨"Jakarta", "GPE"⟩], "Jakarta is nice"⟩

def sampleAnalysis : AnalysisResponse Int := ⟨[sampleItem], ⟨1, 1, 0, 0⟩⟩

/-- The persistent store after ingesting the one-post batch. -/
def samplePersistentState : N4jState Int :=
  Neo4jGraphService.build_knowledge_graph Neo4jGraphService.emptyState sampleAnalysis true

/-- The ephemeral store after ingesting the one-post batch. -/
def sampleEphemeralGraph : NxGraph := NlpService.build_knowledge_graph sampleAnalysis

/-- The stored Post node of `samplePersistentState`. -/
def samplePostNode : N4jNode Int :=
  ⟨"post:p1", "Post", none, some "Jakarta is nice", some "positive", some 1, none⟩

/-- A statement runner for `init_constraints` whose store is the log of
successfully executed statements, failing on the `user_id` constraint with
an error that is not a constraint-already-exists outcome. -/
def c8Run : String → List String → Except String (List String) := fun c log =>
  if c = "CREATE CONSTRAINT user_id IF NOT EXISTS FOR (u:User) REQUIRE u.id IS UNIQUE"
  then Except.error "Neo.TransientError.General.DatabaseUnavailable"
  else Except.ok (log ++ [c])

/-! ## Key-prefix disjointness -/

lemma userKey_ne_postKey (a p : String) : userKey a ≠ postKey p := by
  intro h
  have h2 := congrArg String.data h
  simp [userKey, postKey, String.data_append] at h2

lemma userKey_ne_platformKey (a n : String) : userKey a ≠ platformKey n := by
  intro h
  have h2 := congrArg String.data h
  simp [userKey, platformKey, String.data_append] at h2

lemma userKey_ne_entityKey (a l t : String) : userKey a ≠ entityKey l t := by
  intro h
  have h2 := congrArg String.data h
  simp [userKey, entityKey, String.data_append] at h2

lemma postKey_ne_platformKey (p n : String) : postKey p ≠ platformKey n := by
  intro h
  have h2 := congrArg String.data h
  simp [postKey, platformKey, String.data_append] at h2

lemma postKey_ne_entityKey (p l t : String) : postKey p ≠ entityKey l t := by
  intro h
  have h2 := congrArg String.data h
  simp [postKey, entityKey, String.data_append] at h2

lemma platformKey_ne_entityKey (n l t : String) : platformKey n ≠ entityKey l t := by
  intro h
  have h2 := congrArg String.data h
  simp [platformKey, entityKey, String.data_append] at h2

/-- C5: key derivation is a pure deterministic function of (kind, natural
identifier); keys follow the composite formats `user:<author>`,
`post:<post_id>`, `platform:<platform_name>`,
`entity:<entity_label>:<entity_text>`, and keys of different kinds can
never collide. -/
theorem key_derivation_deterministic_disjoint :
    (∀ a, userKey a = userKey a)
  ∧ (∀ p, postKey p = postKey p)
  ∧ (∀ n, platformKey n = platformKey n)
  ∧ (∀ l t, entityKey l t = entityKey l t)
  ∧ (∀ a, userKey a = "user:" ++ a)
  ∧ (∀ p, postKey p = "post:" ++ p)
  ∧ (∀ n, platformKey n = "platform:" ++ n)
  ∧ (∀ l t, entityKey l t = "entity:" ++ l ++ ":" ++ t)
  ∧ (∀ a p, userKey a ≠ postKey p)
  ∧ (∀ a n, userKey a ≠ platformKey n)
  ∧ (∀ a l t, userKey a ≠ entityKey l t)
  ∧ (∀ p n, postKey p ≠ platformKey n)
  ∧ (∀ p l t, postKey p ≠ entityKey l t)
  ∧ (∀ n l t, platformKey n ≠ entityKey l t) :=
  ⟨fun _ => rfl, fun _ => rfl, fun _ => rfl, fun _ _ => rfl,
   fun _ => rfl, fun _ => rfl, fun _ => rfl, fun _ _ => rfl,
   userKey_ne_postKey, userKey_ne_platformKey, userKey_ne_entityKey,
   postKey_ne_platformKey, postKey_ne_entityKey, platformKey_ne_entityKey⟩

/-! ## Lookup misses (C7, C9) -/

lemma getNodeById_none {Score : Type} (s : N4jState Score) (nid : String)
    (h : ∀ n ∈ s.nodes, n.id ≠ nid) :
    Neo4jGraphService.get_node_by_id s nid = none := by
  unfold Neo4jGraphService.get_node_by_id
  have hf : s.nodes.find? (fun n => n.id == nid) = none := by
    rw [List.find?_eq_none]
    intro n hn
    simpa using h n hn
  rw [hf]
  rfl

/-- C7: looking up a node id that is not in the graph returns an absent
result (`None`), never a failure. -/
theorem get_node_by_id_absent {Score : Type} (s : N4jState Score) (nid : String)
    (h : ∀ n ∈ s.nodes, n.id ≠ nid) :
    Neo4jGraphService.get_node_by_id s nid = none :=
  getNodeById_none s nid h

theorem get_node_by_id_absent_witness :
    (∀ n ∈ samplePersistentState.nodes, n.id ≠ "post:does-not-exist")
    ∧ Neo4jGraphService.get_node_by_id samplePersistentState "post:does-not-exist" = none :=
  ⟨by decide, get_node_by_id_absent samplePersistentState "post:does-not-exist" (by decide)⟩

/-- C9: querying neighbors of an id absent from the graph yields an empty
graph response — no center node, no neighbors, no edges, no error. -/
theorem get_neighbors_absent {Score : Type} (s : N4jState Score) (nid : String)
    (h : ∀ n ∈ s.nodes, n.id ≠ nid) :
    Neo4jGraphService.get_neighbors s nid = ⟨[], []⟩ := by
  have hfind := getNodeById_none s nid h
  have hany : s.nodes.any (fun n => n.id == nid) = false := by
    rw [List.any_eq_false]
    intro n hn
    simpa using h n hn
  simp [Neo4jGraphService.get_neighbors, Neo4jGraphService.neighborRows, hfind, hany]

theorem get_neighbors_absent_witness :
    (∀ n ∈ samplePersistentState.nodes, n.id ≠ "user:ghost")
    ∧ Neo4jGraphService.get_neighbors samplePersistentState "user:ghost" = ⟨[], []⟩ :=
  ⟨by decide, get_neighbors_absent samplePersistentState "user:ghost" (by decide)⟩

/-! ## Analysis statistics (C10) -/

lemma analyze_foldl_items {Score : Type} (sent : String → SentimentResult Score)
    (ner : String → List NEREntity) (posts : List Post) :
    ∀ acc, (posts.foldl (NlpService.analyzeStep sent ner) acc).1
      = acc.1 ++ posts.map (NlpService.analyzedItem sent ner) := by
  induction posts with
  | nil => intro acc; simp
  | cons p ps ih =>
    intro acc
    rw [List.foldl_cons, ih]
    simp [NlpService.analyzeStep]

lemma analyze_foldl_counts {Score : Type} (sent : String → SentimentResult Score)
    (ner : String → List NEREntity) (posts : List Post) :
    ∀ acc, (posts.foldl (NlpService.analyzeStep sent ner) acc).2.1
        + (posts.foldl (NlpService.analyzeStep sent ner) acc).2.2.1
        + (posts.foldl (NlpService.analyzeStep sent ner) acc).2.2.2
      = acc.2.1 + acc.2.2.1 + acc.2.2.2 + posts.length := by
  induction posts with
  | nil => intro acc; simp
  | cons p ps ih =>
    intro acc
    rw [List.foldl_cons, ih]
    simp only [NlpService.analyzeStep]
    split_ifs <;> simp <;> omega

/-- C10: `analyze_posts` returns stats with
positive + neutral + negative = total_posts = number of input posts =
number of returned items, and the items are exactly the input posts in
order, each carrying the post's id, platform, author and text unchanged. -/
theorem analyze_posts_stats_items {Score : Type} (sent : String → SentimentResult Score)
    (ner : String → List NEREntity) (posts : List Post) :
    (NlpService.analyze_posts sent ner posts).stats.positive
        + (NlpService.analyze_posts sent ner posts).stats.neutral
        + (NlpService.analyze_posts sent ner posts).stats.negative
      = (NlpService.analyze_posts sent ner posts).stats.total_posts
  ∧ (NlpService.analyze_posts sent ner posts).stats.total_posts = posts.length
  ∧ (NlpService.analyze_posts sent ner posts).items.length = posts.length
  ∧ (NlpService.analyze_posts sent ner posts).items
      = posts.map (NlpService.analyzedItem sent ner) := by
  have hi := analyze_foldl_items sent ner posts ([], 0, 0, 0)
  have hc := analyze_foldl_counts sent ner posts ([], 0, 0, 0)
  simp only [List.nil_append] at hi
  simp only [NlpService.analyze_posts]
  refine ⟨?_, trivial, ?_, hi⟩
  · simpa using hc
  · rw [hi]
    simp

/-! ## Startup constraint initialization (C8) -/

lemma init_fold_filter {σ : Type} (fail : String → Bool) (err : String → String)
    (eff : String → σ → σ) (L : List String) :
    ∀ s : σ, L.foldl
        (fun st c =>
          match (if fail c then Except.error (err c) else Except.ok (eff c st) :
              Except String σ) with
          | Except.ok st2 => st2
          | Except.error _ => st) s
      = (L.filter (fun c => !fail c)).foldl (fun st c => eff c st) s := by
  induction L with
  | nil => intro s; rfl
  | cons c cs ih =>
    intro s
    cases hfc : fail c <;> simp [hfc, ih]

/-- C8 (amended): any failure of any of the four constraint statements is
swallowed — the failing statement's effect is skipped and the remaining
statements still run, whether or not the failure is a
constraint-already-exists outcome — and a failed connectivity check makes
startup skip constraint initialization entirely without raising. -/
theorem init_constraints_swallows_all_failures {σ : Type} (fail : String → Bool)
    (err : String → String) (eff : String → σ → σ) (s : σ) :
    Neo4jGraphService.init_constraints
        (fun c st => if fail c then Except.error (err c) else Except.ok (eff c st)) s
      = (Neo4jGraphService.initConstraintStmts.filter (fun c => !fail c)).foldl
          (fun st c => eff c st) s
  ∧ Neo4jGraphService.lifespanStartup false
        (fun c st => if fail c then Except.error (err c) else Except.ok (eff c st)) s
      = s :=
  ⟨init_fold_filter fail err eff Neo4jGraphService.initConstraintStmts s, rfl⟩

/-- C8 counterexample: a non-constraint-exists failure (a transient
database error on the `user_id` constraint) is also silently skipped:
`init_constraints` completes, runs the remaining statements, and the failed
statement's effect is missing from the store. -/
theorem init_constraints_skips_transient_failure :
    Neo4jGraphService.init_constraints c8Run []
      = ["CREATE CONSTRAINT post_id IF NOT EXISTS FOR (p:Post) REQUIRE p.id IS UNIQUE",
         "CREATE CONSTRAINT platform_id IF NOT EXISTS FOR (pl:Platform) REQUIRE pl.id IS UNIQUE",
         "CREATE CONSTRAINT entity_id IF NOT EXISTS FOR (e:Entity) REQUIRE e.id IS UNIQUE"]
  ∧ "CREATE CONSTRAINT user_id IF NOT EXISTS FOR (u:User) REQUIRE u.id IS UNIQUE"
      ∉ Neo4jGraphService.init_constraints c8Run [] := by
  constructor <;> decide

/-! ## Neighbor direction resolution (C2) -/

/-- C2: for every stored relationship adjacent to the queried node id,
`get_neighbors` reports the connecting edge with direction resolved
against the stored relationship — (queried → neighbor) when the queried
node is the relationship's start node, (neighbor → queried) otherwise;
and concretely, the neighbors of `platform:twitter` in the one-post graph
contain exactly the edge `post:p1 → platform:twitter (ON)` and never the
reversed edge. -/
theorem get_neighbors_direction {Score : Type} (s : N4jState Score) (nid : String)
    (r : N4jRel) (hr : r ∈ s.rels) (hc : s.nodes.any (fun n => n.id == nid) = true) :
    ((r.startId = nid → ∀ m, s.nodes.find? (fun x => x.id == r.endId) = some m →
        GraphEdge.mk nid m.id r.relType ∈ (Neo4jGraphService.get_neighbors s nid).edges)
  ∧ (r.startId ≠ nid → r.endId = nid →
      ∀ m, s.nodes.find? (fun x => x.id == r.startId) = some m →
        GraphEdge.mk m.id nid r.relType ∈ (Neo4jGraphService.get_neighbors s nid).edges))
  ∧ (Neo4jGraphService.get_neighbors samplePersistentState "platform:twitter").edges
      = [GraphEdge.mk "post:p1" "platform:twitter" "ON"]
  ∧ GraphEdge.mk "platform:twitter" "post:p1" "ON"
      ∉ (Neo4jGraphService.get_neighbors samplePersistentState "platform:twitter").edges := by
  have hedges : (Neo4jGraphService.get_neighbors s nid).edges
      = (Neo4jGraphService.neighborRows s nid).map
          (fun p => Neo4jGraphService.rowEdge nid p.1 p.2) := rfl
  refine ⟨⟨?_, ?_⟩, by decide, by decide⟩
  · intro hstart m hm
    rw [hedges]
    rw [List.mem_map]
    refine ⟨(m, r), ?_, ?_⟩
    · unfold Neo4jGraphService.neighborRows
      simp only [hc, if_true]
      rw [List.mem_filterMap]
      refine ⟨r, hr, ?_⟩
      rw [if_pos hstart, hm]
      rfl
    · unfold Neo4jGraphService.rowEdge
      rw [if_pos hstart]
  · intro hstart hend m hm
    rw [hedges]
    rw [List.mem_map]
    refine ⟨(m, r), ?_, ?_⟩
    · unfold Neo4jGraphService.neighborRows
      simp only [hc, if_true]
      rw [List.mem_filterMap]
      refine ⟨r, hr, ?_⟩
      rw [if_neg hstart, if_pos hend, hm]
      rfl
    · unfold Neo4jGraphService.rowEdge
      rw [if_neg hstart]

theorem get_neighbors_direction_witness :
    GraphEdge.mk "post:p1" "platform:twitter" "ON"
      ∈ (Neo4jGraphService.get_neighbors samplePersistentState "platform:twitter").edges :=
  ((get_neighbors_direction samplePersistentState "platform:twitter"
      ⟨"post:p1", "platform:twitter", "ON"⟩ (by decide) (by decide)).1.2
    (by decide) (by decide)) samplePostNode (by decide)

/-! ## Single-post ingestion (C1) -/

/-- C1 counterexample: on the ephemeral backend the snapshot of the
one-post graph does not contain the claimed oriented edge
`user:alice → post:p1 (POSTED)`; the undirected store reports the POSTED
edge as `post:p1 → user:alice`. -/
theorem single_post_ephemeral_posted_flipped :
    GraphEdge.mk "user:alice" "post:p1" "POSTED"
      ∉ (NlpService.get_graph_response sampleEphemeralGraph).edges
  ∧ GraphEdge.mk "post:p1" "user:alice" "POSTED"
      ∈ (NlpService.get_graph_response sampleEphemeralGraph).edges := by
  constructor <;> decide

/-- C1 (amended): ingesting the single annotated post `p1` into an empty
graph yields exactly the four nodes `post:p1`, `user:alice`,
`platform:twitter`, `entity:GPE:Jakarta` on both backends; on the
persistent backend the three edges have exactly the stated orientation
(`user:alice → post:p1 POSTED`, `post:p1 → platform:twitter ON`,
`post:p1 → entity:GPE:Jakarta MENTIONS`), while the ephemeral backend,
whose store is undirected, reports the same three relationships with the
POSTED edge oriented `post:p1 → user:alice`. -/
theorem single_post_ingestion_snapshot :
    (Neo4jGraphService.get_graph_response samplePersistentState).nodes.map GraphNode.id
        = ["post:p1", "user:alice", "platform:twitter", "entity:GPE:Jakarta"]
  ∧ (Neo4jGraphService.get_graph_response samplePersistentState).edges
        = [GraphEdge.mk "user:alice" "post:p1" "POSTED",
           GraphEdge.mk "post:p1" "platform:twitter" "ON",
           GraphEdge.mk "post:p1" "entity:GPE:Jakarta" "MENTIONS"]
  ∧ (NlpService.get_graph_response sampleEphemeralGraph).nodes.map GraphNode.id
        = ["post:p1", "user:alice", "platform:twitter", "entity:GPE:Jakarta"]
  ∧ (NlpService.get_graph_response sampleEphemeralGraph).edges
        = [GraphEdge.mk "post:p1" "user:alice" "POSTED",
           GraphEdge.mk "post:p1" "platform:twitter" "ON",
           GraphEdge.mk "post:p1" "entity:GPE:Jakarta" "MENTIONS"] := by
  refine ⟨?_, ?_, ?_, ?_⟩ <;> decide

/-! ## Snapshot label and type resolution (C6) -/

/-- C6 counterexample: on the ephemeral backend the display label is not
resolved by the name → text → id priority: the one-post graph's snapshot
returns the node `post:p1` with label `"p1"` (the stored `label`
attribute), whereas the claimed priority would fall through to the node id
`"post:p1"` (ephemeral nodes carry no name or text attributes at all). -/
theorem ephemeral_label_not_name_text_id :
    GraphNode.mk "post:p1" "p1" "post"
      ∈ (NlpService.get_graph_response sampleEphemeralGraph).nodes
  ∧ (∀ n ∈ (NlpService.get_graph_response sampleEphemeralGraph).nodes,
      n.id = "post:p1" → n.label ≠ "post:p1") := by
  constructor <;> decide

/-- C6 (amended): on the persistent backend every stored node is returned
by the snapshot with display label `COALESCE(name, text, id)` and the
lower-cased node label as type; on the ephemeral backend every stored node
is returned with the stored `label` attribute (falling back to the node
id) and the stored `type` attribute (falling back to `"entity"`). -/
theorem snapshot_label_resolution {Score : Type} (s : N4jState Score)
    (n : N4jNode Score) (hn : n ∈ s.nodes)
    (g : NxGraph) (p : String × NxAttrs) (hp : p ∈ g.nodes) :
    GraphNode.mk n.id (Neo4jGraphService.displayLabel n) (Neo4jGraphService.snapshotType n)
        ∈ (Neo4jGraphService.get_graph_response s).nodes
  ∧ Neo4jGraphService.displayLabel n
        = (match n.name with
           | some v => v
           | none => match n.text with
             | some v => v
             | none => n.id)
  ∧ Neo4jGraphService.snapshotType n
        = (if n.nodeLabel = "" then "entity" else n.nodeLabel.toLower)
  ∧ GraphNode.mk p.1 ((p.2.label).getD p.1) ((p.2.type).getD "entity")
        ∈ (NlpService.get_graph_response g).nodes := by
  refine ⟨?_, rfl, rfl, ?_⟩
  · exact List.mem_map_of_mem _ hn
  · exact List.mem_map_of_mem _ hp

theorem snapshot_label_resolution_witness :
    (samplePostNode ∈ samplePersistentState.nodes
      ∧ ("post:p1", NxAttrs.mk (some "p1") (some "post") none) ∈ sampleEphemeralGraph.nodes)
  ∧ GraphNode.mk samplePostNode.id (Neo4jGraphService.displayLabel samplePostNode)
        (Neo4jGraphService.snapshotType samplePostNode)
      ∈ (Neo4jGraphService.get_graph_response samplePersistentState).nodes :=
  ⟨⟨by decide, by decide⟩,
   (snapshot_label_resolution samplePersistentState samplePostNode (by decide)
      sampleEphemeralGraph ("post:p1", NxAttrs.mk (some "p1") (some "post") none)
      (by decide)).1⟩

/-! ## Replace vs accumulate machinery (C3, C4)

Accumulate-mode ingestion commutes with the right-biased union: applying a
batch on top of a well-formed store equals the union of that store with
the graph the batch builds from scratch. -/

namespace Neo4jGraphService

variable {Score : Type}

lemma stateExt {s t : N4jState Score} (hn : s.nodes = t.nodes)
    (hr : s.rels = t.rels) : s = t := by
  cases s
  cases t
  cases hn
  cases hr
  rfl

lemma overrideNode_id (t : List (N4jNode Score)) (n : N4jNode Score) :
    (overrideNode t n).id = n.id := by
  unfold overrideNode
  cases hf : t.find? (fun m => m.id == n.id) with
  | none => rfl
  | some m =>
    have := List.find?_some hf
    simpa using this

lemma mergeNode_rels (s : N4jState Score) (lbl k : String)
    (upd : N4jNode Score → N4jNode Score) :
    (mergeNode s lbl k upd).rels = s.rels := by
  unfold mergeNode
  split <;> rfl

lemma mergeRel_nodes (s : N4jState Score) (a b typ : String) :
    (mergeRel s a b typ).nodes = s.nodes := by
  unfold mergeRel
  split <;> rfl

lemma graphUnion_nodes (s e : N4jState Score) :
    (graphUnion s e).nodes = s.nodes.map (overrideNode e.nodes)
      ++ e.nodes.filter (fun m => !(decide (hasId s.nodes m.id))) := rfl

lemma graphUnion_rels (s e : N4jState Score) :
    (graphUnion s e).rels = s.rels ++ e.rels.filter (fun r => !(decide (r ∈ s.rels))) := rfl

lemma graphUnion_empty_right (s : N4jState Score) : graphUnion s emptyState = s := by
  apply stateExt
  · show s.nodes.map (overrideNode []) ++ [] = s.nodes
    rw [List.append_nil]
    have : ∀ n ∈ s.nodes, overrideNode ([] : List (N4jNode Score)) n = n := by
      intro n _
      rfl
    rw [List.map_congr_left this]
    exact List.map_id _
  · show s.rels ++ [] = s.rels
    exact List.append_nil _

lemma find?_id_of_mem_unique {l : List (N4jNode Score)}
    (hp : l.Pairwise (fun a b => a.id ≠ b.id)) {n : N4jNode Score} (hn : n ∈ l) :
    l.find? (fun m => m.id == n.id) = some n := by
  induction l with
  | nil => cases hn
  | cons a l ih =>
    rcases List.mem_cons.1 hn with rfl | hmem
    · rw [List.find?_cons_of_pos]
      simp
    · have ha : a.id ≠ n.id := (List.pairwise_cons.1 hp).1 n hmem
      rw [List.find?_cons_of_neg]
      · exact ih (List.pairwise_cons.1 hp).2 hmem
      · simp [ha]

lemma graphUnion_self (s : N4jState Score)
    (hids : s.nodes.Pairwise (fun a b => a.id ≠ b.id)) :
    graphUnion s s = s := by
  apply stateExt
  · rw [graphUnion_nodes]
    have h1 : s.nodes.map (overrideNode s.nodes) = s.nodes := by
      have hcong : ∀ n ∈ s.nodes, overrideNode s.nodes n = n := by
        intro n hn
        unfold overrideNode
        rw [find?_id_of_mem_unique hids hn]
      rw [List.map_congr_left hcong]
      exact List.map_id _
    have h2 : s.nodes.filter (fun m => !(decide (hasId s.nodes m.id))) = [] := by
      rw [List.filter_eq_nil_iff]
      intro m hm
      simp [hasId]
      exact ⟨m, hm, rfl⟩
    rw [h1, h2, List.append_nil]
  · rw [graphUnion_rels]
    have h2 : s.rels.filter (fun r => !(decide (r ∈ s.rels))) = [] := by
      rw [List.filter_eq_nil_iff]
      intro r hr
      simp [hr]
    rw [h2, List.append_nil]

lemma hasNode_union_of_right (s e : N4jState Score) (lbl k : String)
    (hwf_e : ∀ n ∈ e.nodes, nodeWF n)
    (hlab : ∀ n : N4jNode Score, nodeWF n → n.id = k → n.nodeLabel = lbl)
    (h : hasNode e lbl k) : hasNode (graphUnion s e) lbl k := by
  obtain ⟨ne, hne, hlbl, hid⟩ := h
  by_cases h2 : hasId s.nodes k
  · obtain ⟨ns, hns, hidns⟩ := h2
    have hsome : (e.nodes.find? (fun m => m.id == ns.id)).isSome := by
      rw [List.find?_isSome]
      exact ⟨ne, hne, by simp [hid, hidns]⟩
    obtain ⟨m, hm⟩ := Option.isSome_iff_exists.1 hsome
    have hmem : m ∈ e.nodes := List.mem_of_find?_eq_some hm
    have hmid : m.id = k := by
      have := List.find?_some hm
      simp at this
      rw [this, hidns]
    refine ⟨overrideNode e.nodes ns, ?_, ?_⟩
    · rw [graphUnion_nodes]
      exact List.mem_append_left _ (List.mem_map_of_mem _ hns)
    · unfold overrideNode
      rw [hm]
      exact ⟨hlab m (hwf_e m hmem) hmid, hmid⟩
  · refine ⟨ne, ?_, hlbl, hid⟩
    rw [graphUnion_nodes]
    apply List.mem_append_right
    rw [List.mem_filter]
    exact ⟨hne, by simp [hid, h2]⟩

lemma mergeNode_union (s e : N4jState Score) (lbl k : String)
    (upd : N4jNode Score → N4jNode Score)
    (hwf_s : ∀ n ∈ s.nodes, nodeWF n)
    (hwf_e : ∀ n ∈ e.nodes, nodeWF n)
    (hupd_id : ∀ n, (upd n).id = n.id)
    (hk : ∀ n : N4jNode Score, nodeWF n → n.id = k →
      n.nodeLabel = lbl ∧ upd n = upd (blankNode lbl k)) :
    mergeNode (graphUnion s e) lbl k upd = graphUnion s (mergeNode e lbl k upd) := by
  set φ : N4jNode Score → N4jNode Score :=
    fun n => if n.nodeLabel = lbl ∧ n.id = k then upd n else n with hφ
  have hφid : ∀ n, (φ n).id = n.id := by
    intro n
    by_cases h : n.nodeLabel = lbl ∧ n.id = k
    · simp [hφ, h, hupd_id]
    · simp [hφ, h]
  have hφskip : ∀ n : N4jNode Score, n.id ≠ k → φ n = n := by
    intro n hn
    simp only [hφ]
    rw [if_neg]
    intro hcond
    exact hn hcond.2
  have hfindmap : ∀ (l : List (N4jNode Score)) (x : String),
      (l.map φ).find? (fun m => m.id == x) = (l.find? (fun m => m.id == x)).map φ := by
    intro l x
    rw [List.find?_map]
    have hpred : ((fun m : N4jNode Score => m.id == x) ∘ φ)
        = (fun m : N4jNode Score => m.id == x) := by
      funext m
      simp [Function.comp, hφid]
    rw [hpred]
  have hubid : (upd (blankNode lbl k) : N4jNode Score).id = k := hupd_id _
  by_cases h1 : hasNode e lbl k
  · -- the merge key exists in `e`: both merges update in place
    have hU : hasNode (graphUnion s e) lbl k :=
      hasNode_union_of_right s e lbl k hwf_e (fun n ha hb => (hk n ha hb).1) h1
    have hLHS : mergeNode (graphUnion s e) lbl k upd
        = { graphUnion s e with nodes := ((graphUnion s e).nodes.map φ) } := by
      rw [mergeNode, if_pos hU]
    have hRHS : mergeNode e lbl k upd = { e with nodes := (e.nodes.map φ) } := by
      rw [mergeNode, if_pos h1]
    rw [hLHS, hRHS]
    apply stateExt
    · show (graphUnion s e).nodes.map φ
        = (graphUnion s { e with nodes := (e.nodes.map φ) }).nodes
      rw [graphUnion_nodes, graphUnion_nodes, List.map_append]
      congr 1
      · rw [List.map_map]
        apply List.map_congr_left
        intro ns hns
        show φ (overrideNode e.nodes ns) = overrideNode (e.nodes.map φ) ns
        unfold overrideNode
        rw [hfindmap]
        cases hf : e.nodes.find? (fun m => m.id == ns.id) with
        | some m => simp
        | none =>
          have hnsk : ns.id ≠ k := by
            intro hkk
            obtain ⟨ne, hne, hlblne, hidne⟩ := h1
            have hsome : (e.nodes.find? (fun m => m.id == ns.id)).isSome = true := by
              rw [List.find?_isSome]
              exact ⟨ne, hne, by simp [hidne, hkk]⟩
            rw [hf] at hsome
            simp at hsome
          simp only [Option.map_none']
          exact hφskip ns hnsk
      · have hpred : ((fun m : N4jNode Score => !(decide (hasId s.nodes m.id))) ∘ φ)
            = (fun m : N4jNode Score => !(decide (hasId s.nodes m.id))) := by
          funext m
          simp [Function.comp, hφid]
        rw [List.filter_map, hpred]
    · rfl
  · have henok : ∀ m ∈ e.nodes, m.id ≠ k := by
      intro m hm hkm
      exact h1 ⟨m, hm, (hk m (hwf_e m hm) hkm).1, hkm⟩
    have hRHS : mergeNode e lbl k upd
        = { e with nodes := e.nodes ++ [upd (blankNode lbl k)] } := by
      rw [mergeNode, if_neg h1]
    by_cases h2 : hasId s.nodes k
    · -- the merge key exists only in `s`: the union's copy is updated
      have hU : hasNode (graphUnion s e) lbl k := by
        obtain ⟨ns, hns, hidns⟩ := h2
        have hov : overrideNode e.nodes ns = ns := by
          unfold overrideNode
          have hnone : e.nodes.find? (fun m => m.id == ns.id) = none := by
            rw [List.find?_eq_none]
            intro m hm
            simp [hidns, henok m hm]
          rw [hnone]
        refine ⟨overrideNode e.nodes ns, ?_, ?_⟩
        · rw [graphUnion_nodes]
          exact List.mem_append_left _ (List.mem_map_of_mem _ hns)
        · rw [hov]
          exact ⟨(hk ns (hwf_s ns hns) hidns).1, hidns⟩
      have hLHS : mergeNode (graphUnion s e) lbl k upd
          = { graphUnion s e with nodes := ((graphUnion s e).nodes.map φ) } := by
        rw [mergeNode, if_pos hU]
      rw [hLHS, hRHS]
      apply stateExt
      · show (graphUnion s e).nodes.map φ
          = (graphUnion s { e with nodes := e.nodes ++ [upd (blankNode lbl k)] }).nodes
        rw [graphUnion_nodes, graphUnion_nodes, List.map_append]
        congr 1
        · rw [List.map_map]
          apply List.map_congr_left
          intro ns hns
          show φ (overrideNode e.nodes ns)
            = overrideNode (e.nodes ++ [upd (blankNode lbl k)]) ns
          unfold overrideNode
          rw [List.find?_append]
          cases hf : e.nodes.find? (fun m => m.id == ns.id) with
          | some m =>
            have hmmem : m ∈ e.nodes := List.mem_of_find?_eq_some hf
            simp only [Option.or_some]
            exact hφskip m (henok m hmmem)
          | none =>
            simp only [Option.none_or]
            by_cases hnsk : ns.id = k
            · have hfu : [upd (blankNode lbl k)].find? (fun m => m.id == ns.id)
                  = some (upd (blankNode lbl k)) := by
                rw [List.find?_cons_of_pos]
                simp [hubid, hnsk]
              rw [hfu]
              have hwfns := hwf_s ns hns
              have hcond : ns.nodeLabel = lbl ∧ ns.id = k := ⟨(hk ns hwfns hnsk).1, hnsk⟩
              simp only [hφ]
              rw [if_pos hcond]
              exact (hk ns hwfns hnsk).2
            · have hfu : [upd (blankNode lbl k)].find? (fun m => m.id == ns.id) = none := by
                rw [List.find?_eq_none]
                intro m hm
                rw [List.mem_singleton] at hm
                subst hm
                simp [hubid]
                intro hkk
                exact absurd hkk.symm hnsk
              rw [hfu]
              exact hφskip ns hnsk
        · rw [List.filter_append]
          have hfu : [upd (blankNode lbl k)].filter
              (fun m => !(decide (hasId s.nodes m.id))) = [] := by
            rw [List.filter_eq_nil_iff]
            intro m hm
            rw [List.mem_singleton] at hm
            subst hm
            simp [hubid, h2]
          rw [hfu, List.append_nil]
          have : ∀ m ∈ e.nodes.filter (fun m => !(decide (hasId s.nodes m.id))), φ m = m := by
            intro m hm
            exact hφskip m (henok m (List.mem_of_mem_filter hm))
          rw [List.map_congr_left this]
          exact List.map_id _
      · rfl
    · -- the merge key exists nowhere: both sides append the new node
      have hsnok : ∀ ns ∈ s.nodes, ns.id ≠ k := by
        intro ns hns hkns
        exact h2 ⟨ns, hns, hkns⟩
      have hUno : ¬ hasNode (graphUnion s e) lbl k := by
        rintro ⟨n, hn, hlbln, hidn⟩
        rw [graphUnion_nodes] at hn
        rcases List.mem_append.1 hn with hn | hn
        · obtain ⟨ns, hns, rfl⟩ := List.mem_map.1 hn
          rw [overrideNode_id] at hidn
          exact hsnok ns hns hidn
        · exact henok n (List.mem_of_mem_filter hn) hidn
      have hLHS : mergeNode (graphUnion s e) lbl k upd
          = { graphUnion s e with
              nodes := (graphUnion s e).nodes ++ [upd (blankNode lbl k)] } := by
        rw [mergeNode, if_neg hUno]
      rw [hLHS, hRHS]
      apply stateExt
      · show (graphUnion s e).nodes ++ [upd (blankNode lbl k)]
          = (graphUnion s { e with nodes := e.nodes ++ [upd (blankNode lbl k)] }).nodes
        rw [graphUnion_nodes, graphUnion_nodes]
        have hsmap : s.nodes.map (overrideNode (e.nodes ++ [upd (blankNode lbl k)]))
            = s.nodes.map (overrideNode e.nodes) := by
          apply List.map_congr_left
          intro ns hns
          unfold overrideNode
          rw [List.find?_append]
          have hfu : [upd (blankNode lbl k)].find? (fun m => m.id == ns.id) = none := by
            rw [List.find?_eq_none]
            intro m hm
            rw [List.mem_singleton] at hm
            subst hm
            simp [hubid]
            intro hkk
            exact hsnok ns hns hkk.symm
          rw [hfu]
          cases e.nodes.find? (fun m => m.id == ns.id) <;> rfl
        have hfilt : (e.nodes ++ [upd (blankNode lbl k)]).filter
              (fun m => !(decide (hasId s.nodes m.id)))
            = e.nodes.filter (fun m => !(decide (hasId s.nodes m.id)))
              ++ [upd (blankNode lbl k)] := by
          rw [List.filter_append]
          congr 1
          rw [List.filter_eq_self]
          intro m hm
          rw [List.mem_singleton] at hm
          subst hm
          simp [hubid, h2]
        rw [hsmap, hfilt, List.append_assoc]
      · rfl

lemma mergeRel_union (s e : N4jState Score) (a b typ : String) :
    mergeRel (graphUnion s e) a b typ = graphUnion s (mergeRel e a b typ) := by
  by_cases h1 : (⟨a, b, typ⟩ : N4jRel) ∈ e.rels
  · have hRHS : mergeRel e a b typ = e := by
      rw [mergeRel, if_pos h1]
    have hmem : (⟨a, b, typ⟩ : N4jRel) ∈ (graphUnion s e).rels := by
      rw [graphUnion_rels]
      by_cases h2 : (⟨a, b, typ⟩ : N4jRel) ∈ s.rels
      · exact List.mem_append_left _ h2
      · apply List.mem_append_right
        rw [List.mem_filter]
        exact ⟨h1, by simp [h2]⟩
    rw [hRHS, mergeRel, if_pos hmem]
  · have hRHS : mergeRel e a b typ = { e with rels := e.rels ++ [⟨a, b, typ⟩] } := by
      rw [mergeRel, if_neg h1]
    by_cases h2 : (⟨a, b, typ⟩ : N4jRel) ∈ s.rels
    · have hmem : (⟨a, b, typ⟩ : N4jRel) ∈ (graphUnion s e).rels := by
        rw [graphUnion_rels]
        exact List.mem_append_left _ h2
      rw [hRHS, mergeRel, if_pos hmem]
      apply stateExt
      · rfl
      · show (graphUnion s e).rels
          = (graphUnion s { e with rels := e.rels ++ [⟨a, b, typ⟩] }).rels
        rw [graphUnion_rels, graphUnion_rels, List.filter_append]
        have : [(⟨a, b, typ⟩ : N4jRel)].filter (fun r => !(decide (r ∈ s.rels))) = [] := by
          rw [List.filter_eq_nil_iff]
          intro r hr
          rw [List.mem_singleton] at hr
          subst hr
          simp [h2]
        rw [this, List.append_nil]
    · have hmem : (⟨a, b, typ⟩ : N4jRel) ∉ (graphUnion s e).rels := by
        rw [graphUnion_rels]
        intro hmem
        rcases List.mem_append.1 hmem with hmem | hmem
        · exact h2 hmem
        · exact h1 (List.mem_of_mem_filter hmem)
      rw [hRHS, mergeRel, if_neg hmem]
      apply stateExt
      · rfl
      · show (graphUnion s e).rels ++ [⟨a, b, typ⟩]
          = (graphUnion s { e with rels := e.rels ++ [⟨a, b, typ⟩] }).rels
        rw [graphUnion_rels, graphUnion_rels, List.filter_append]
        have : [(⟨a, b, typ⟩ : N4jRel)].filter (fun r => !(decide (r ∈ s.rels)))
            = [⟨a, b, typ⟩] := by
          rw [List.filter_eq_self]
          intro r hr
          rw [List.mem_singleton] at hr
          subst hr
          simp [h2]
        rw [this, List.append_assoc]

lemma nodeWF_id_post {n : N4jNode Score} (hwf : nodeWF n) {pid : String}
    (hid : n.id = postKey pid) :
    n.nodeLabel = "Post" ∧ n.name = none ∧ n.entLabel = none := by
  rcases hwf with ⟨h1, _, h3, h4⟩ | ⟨_, ⟨a, ha⟩, _⟩ | ⟨_, ⟨a, ha⟩, _⟩ | ⟨_, ⟨l, t, ha⟩, _⟩
  · exact ⟨h1, h3, h4⟩
  · exact absurd (ha.symm.trans hid) (userKey_ne_postKey a pid)
  · exact absurd (ha.symm.trans hid).symm (postKey_ne_platformKey pid a)
  · exact absurd (ha.symm.trans hid).symm (postKey_ne_entityKey pid l t)

lemma nodeWF_id_user {n : N4jNode Score} (hwf : nodeWF n) {a0 : String}
    (hid : n.id = userKey a0) :
    n.nodeLabel = "User" ∧ n.text = none ∧ n.sentiment = none
      ∧ n.score = none ∧ n.entLabel = none := by
  rcases hwf with ⟨_, ⟨a, ha⟩, _⟩ | ⟨h1, _, h3, h4, h5, h6⟩ | ⟨_, ⟨a, ha⟩, _⟩
    | ⟨_, ⟨l, t, ha⟩, _⟩
  · exact absurd (ha.symm.trans hid).symm (userKey_ne_postKey a0 a)
  · exact ⟨h1, h3, h4, h5, h6⟩
  · exact absurd (ha.symm.trans hid).symm (userKey_ne_platformKey a0 a)
  · exact absurd (ha.symm.trans hid).symm (userKey_ne_entityKey a0 l t)

lemma nodeWF_id_platform {n : N4jNode Score} (hwf : nodeWF n) {p0 : String}
    (hid : n.id = platformKey p0) :
    n.nodeLabel = "Platform" ∧ n.text = none ∧ n.sentiment = none
      ∧ n.score = none ∧ n.entLabel = none := by
  rcases hwf with ⟨_, ⟨a, ha⟩, _⟩ | ⟨_, ⟨a, ha⟩, _⟩ | ⟨h1, _, h3, h4, h5, h6⟩
    | ⟨_, ⟨l, t, ha⟩, _⟩
  · exact absurd (ha.symm.trans hid) (postKey_ne_platformKey a p0)
  · exact absurd (ha.symm.trans hid) (userKey_ne_platformKey a p0)
  · exact ⟨h1, h3, h4, h5, h6⟩
  · exact absurd (ha.symm.trans hid).symm (platformKey_ne_entityKey p0 l t)

lemma nodeWF_id_entity {n : N4jNode Score} (hwf : nodeWF n) {l0 t0 : String}
    (hid : n.id = entityKey l0 t0) :
    n.nodeLabel = "Entity" ∧ n.name = none ∧ n.sentiment = none ∧ n.score = none := by
  rcases hwf with ⟨_, ⟨a, ha⟩, _⟩ | ⟨_, ⟨a, ha⟩, _⟩ | ⟨_, ⟨a, ha⟩, _⟩
    | ⟨h1, _, h3, h4, h5⟩
  · exact absurd (ha.symm.trans hid) (postKey_ne_entityKey a l0 t0)
  · exact absurd (ha.symm.trans hid) (userKey_ne_entityKey a l0 t0)
  · exact absurd (ha.symm.trans hid) (platformKey_ne_entityKey a l0 t0)
  · exact ⟨h1, h3, h4, h5⟩

lemma hasNode_mergeNode_mono (s : N4jState Score) (lbl k : String)
    (upd : N4jNode Score → N4jNode Score) (lbl' k' : String)
    (hupd_id : ∀ n, (upd n).id = n.id)
    (hupd_lbl : ∀ n, (upd n).nodeLabel = n.nodeLabel)
    (h : hasNode s lbl' k') : hasNode (mergeNode s lbl k upd) lbl' k' := by
  obtain ⟨n, hn, hl, hi⟩ := h
  unfold mergeNode
  split
  · refine ⟨if n.nodeLabel = lbl ∧ n.id = k then upd n else n,
      List.mem_map_of_mem _ hn, ?_⟩
    split
    · exact ⟨(hupd_lbl n).trans hl, (hupd_id n).trans hi⟩
    · exact ⟨hl, hi⟩
  · exact ⟨n, List.mem_append_left _ hn, hl, hi⟩

lemma hasNode_mergeNode_self (s : N4jState Score) (lbl k : String)
    (upd : N4jNode Score → N4jNode Score)
    (hupd_id : ∀ n, (upd n).id = n.id)
    (hupd_lbl : ∀ n, (upd n).nodeLabel = n.nodeLabel) :
    hasNode (mergeNode s lbl k upd) lbl k := by
  unfold mergeNode
  split
  · case isTrue h =>
    obtain ⟨n, hn, hl, hi⟩ := h
    refine ⟨if n.nodeLabel = lbl ∧ n.id = k then upd n else n,
      List.mem_map_of_mem _ hn, ?_⟩
    rw [if_pos ⟨hl, hi⟩]
    exact ⟨(hupd_lbl n).trans hl, (hupd_id n).trans hi⟩
  · refine ⟨upd (blankNode lbl k),
      List.mem_append_right _ (List.mem_singleton_self _), ?_⟩
    exact ⟨hupd_lbl _, hupd_id _⟩

lemma hasNode_mergeRel (s : N4jState Score) (a b typ lbl k : String)
    (h : hasNode s lbl k) : hasNode (mergeRel s a b typ) lbl k := by
  obtain ⟨n, hn, hl, hi⟩ := h
  refine ⟨n, ?_, hl, hi⟩
  rw [mergeRel_nodes]
  exact hn

lemma mergeNode_wf (s : N4jState Score) (lbl k : String)
    (upd : N4jNode Score → N4jNode Score)
    (hwf : ∀ n ∈ s.nodes, nodeWF n)
    (hupd_wf : ∀ n, nodeWF n → n.nodeLabel = lbl → n.id = k → nodeWF (upd n))
    (hblank : nodeWF (upd (blankNode lbl k))) :
    ∀ n ∈ (mergeNode s lbl k upd).nodes, nodeWF n := by
  unfold mergeNode
  split
  · intro n hn
    rw [List.mem_map] at hn
    obtain ⟨m, hm, rfl⟩ := hn
    by_cases hc : m.nodeLabel = lbl ∧ m.id = k
    · rw [if_pos hc]
      exact hupd_wf m (hwf m hm) hc.1 hc.2
    · rw [if_neg hc]
      exact hwf m hm
  · intro n hn
    rcases List.mem_append.1 hn with hn | hn
    · exact hwf n hn
    · rw [List.mem_singleton] at hn
      subst hn
      exact hblank

lemma mergeNode_pairwise (s : N4jState Score) (lbl k : String)
    (upd : N4jNode Score → N4jNode Score)
    (hids : s.nodes.Pairwise (fun a b => a.id ≠ b.id))
    (hwf : ∀ n ∈ s.nodes, nodeWF n)
    (hupd_id : ∀ n, (upd n).id = n.id)
    (hlab : ∀ n : N4jNode Score, nodeWF n → n.id = k → n.nodeLabel = lbl) :
    (mergeNode s lbl k upd).nodes.Pairwise (fun a b => a.id ≠ b.id) := by
  unfold mergeNode
  split
  · rw [List.pairwise_map]
    apply hids.imp
    intro a b hab
    have hida : (if a.nodeLabel = lbl ∧ a.id = k then upd a else a).id = a.id := by
      split
      · exact hupd_id a
      · rfl
    have hidb : (if b.nodeLabel = lbl ∧ b.id = k then upd b else b).id = b.id := by
      split
      · exact hupd_id b
      · rfl
    rw [hida, hidb]
    exact hab
  · case isFalse h =>
    rw [List.pairwise_append]
    refine ⟨hids, List.pairwise_singleton _ _, ?_⟩
    intro a ha b hb
    rw [List.mem_singleton] at hb
    subst hb
    intro heq
    have hak : a.id = k := by
      rw [heq]
      exact hupd_id _
    exact h ⟨a, ha, hlab a (hwf a ha) hak, hak⟩

lemma runPostStmt_union (s e : N4jState Score) (it : PostAnalysis Score)
    (hws : ∀ n ∈ s.nodes, nodeWF n) (hwe : ∀ n ∈ e.nodes, nodeWF n) :
    runPostStmt (graphUnion s e) it = graphUnion s (runPostStmt e it) := by
  unfold runPostStmt
  apply mergeNode_union s e _ _ _ hws hwe
  · intro n
    rfl
  · intro n hwf hid
    obtain ⟨h1, h3, h4⟩ := nodeWF_id_post hwf hid
    refine ⟨h1, ?_⟩
    cases n with
    | mk nid nlbl nname ntext nsent nscore nent =>
      simp only at h1 h3 h4 hid
      subst h1
      subst h3
      subst h4
      subst hid
      rfl

lemma runPostStmt_wf (e : N4jState Score) (it : PostAnalysis Score)
    (hwe : ∀ n ∈ e.nodes, nodeWF n) :
    ∀ n ∈ (runPostStmt e it).nodes, nodeWF n := by
  unfold runPostStmt
  apply mergeNode_wf _ _ _ _ hwe
  · intro n hwf hlbl hid
    left
    obtain ⟨_, h3, h4⟩ := nodeWF_id_post hwf hid
    exact ⟨hlbl, ⟨it.post_id, hid⟩, h3, h4⟩
  · left
    exact ⟨rfl, ⟨it.post_id, rfl⟩, rfl, rfl⟩

lemma runPostStmt_hasPost (e : N4jState Score) (it : PostAnalysis Score) :
    hasNode (runPostStmt e it) "Post" (postKey it.post_id) := by
  unfold runPostStmt
  apply hasNode_mergeNode_self
  · intro n
    rfl
  · intro n
    rfl

lemma guardedRelPost_nodes (s1 : N4jState Score) (pk a b typ : String) :
    (guardedRelPost s1 pk a b typ).nodes = s1.nodes := by
  unfold guardedRelPost
  split
  · rw [mergeRel_nodes]
  · rfl

lemma guardedRelPost_union (s e1 : N4jState Score) (pid a b typ : String)
    (hwe1 : ∀ n ∈ e1.nodes, nodeWF n)
    (hpost : hasNode e1 "Post" (postKey pid)) :
    guardedRelPost (graphUnion s e1) (postKey pid) a b typ
      = graphUnion s (guardedRelPost e1 (postKey pid) a b typ) := by
  unfold guardedRelPost
  have hU : hasNode (graphUnion s e1) "Post" (postKey pid) :=
    hasNode_union_of_right s e1 "Post" (postKey pid) hwe1
      (fun n ha hb => (nodeWF_id_post ha hb).1) hpost
  rw [if_pos hU, if_pos hpost]
  exact mergeRel_union s e1 a b typ

lemma guardedRelPost_hasNode (s1 : N4jState Score) (pk a b typ lbl k : String)
    (h : hasNode s1 lbl k) : hasNode (guardedRelPost s1 pk a b typ) lbl k := by
  obtain ⟨n, hn, hl, hi⟩ := h
  refine ⟨n, ?_, hl, hi⟩
  rw [guardedRelPost_nodes]
  exact hn

lemma guardedRelPost_wf (s1 : N4jState Score) (pk a b typ : String)
    (hw : ∀ n ∈ s1.nodes, nodeWF n) :
    ∀ n ∈ (guardedRelPost s1 pk a b typ).nodes, nodeWF n := by
  rw [guardedRelPost_nodes]
  exact hw

lemma runUserStmt_union (s e : N4jState Score) (it : PostAnalysis Score)
    (hws : ∀ n ∈ s.nodes, nodeWF n) (hwe : ∀ n ∈ e.nodes, nodeWF n)
    (hpost : hasNode e "Post" (postKey it.post_id)) :
    runUserStmt (graphUnion s e) it = graphUnion s (runUserStmt e it) := by
  unfold runUserStmt
  have hmerge : mergeNode (graphUnion s e) "User" (userKey it.author)
      (fun n => { n with name := some it.author })
      = graphUnion s (mergeNode e "User" (userKey it.author)
          (fun n => { n with name := some it.author })) := by
    apply mergeNode_union s e _ _ _ hws hwe
    · intro n
      rfl
    · intro n hwf hid
      obtain ⟨h1, h3, h4, h5, h6⟩ := nodeWF_id_user hwf hid
      refine ⟨h1, ?_⟩
      cases n with
      | mk nid nlbl nname ntext nsent nscore nent =>
        simp only at h1 h3 h4 h5 h6 hid
        subst h1
        subst h3
        subst h4
        subst h5
        subst h6
        subst hid
        rfl
  rw [hmerge]
  apply guardedRelPost_union
  · apply mergeNode_wf _ _ _ _ hwe
    · intro n hwf hlbl hid
      right
      left
      obtain ⟨_, h3, h4, h5, h6⟩ := nodeWF_id_user hwf hid
      exact ⟨hlbl, ⟨it.author, hid⟩, h3, h4, h5, h6⟩
    · right
      left
      exact ⟨rfl, ⟨it.author, rfl⟩, rfl, rfl, rfl, rfl⟩
  · apply hasNode_mergeNode_mono
    · intro n
      rfl
    · intro n
      rfl
    · exact hpost

lemma runUserStmt_wf (e : N4jState Score) (it : PostAnalysis Score)
    (hwe : ∀ n ∈ e.nodes, nodeWF n) :
    ∀ n ∈ (runUserStmt e it).nodes, nodeWF n := by
  unfold runUserStmt
  apply guardedRelPost_wf
  apply mergeNode_wf _ _ _ _ hwe
  · intro n hwf hlbl hid
    right
    left
    obtain ⟨_, h3, h4, h5, h6⟩ := nodeWF_id_user hwf hid
    exact ⟨hlbl, ⟨it.author, hid⟩, h3, h4, h5, h6⟩
  · right
    left
    exact ⟨rfl, ⟨it.author, rfl⟩, rfl, rfl, rfl, rfl⟩

lemma runUserStmt_hasPost (e : N4jState Score) (it : PostAnalysis Score)
    (hpost : hasNode e "Post" (postKey it.post_id)) :
    hasNode (runUserStmt e it) "Post" (postKey it.post_id) := by
  unfold runUserStmt
  apply guardedRelPost_hasNode
  apply hasNode_mergeNode_mono
  · intro n
    rfl
  · intro n
    rfl
  · exact hpost

lemma runPlatformStmt_union (s e : N4jState Score) (it : PostAnalysis Score)
    (hws : ∀ n ∈ s.nodes, nodeWF n) (hwe : ∀ n ∈ e.nodes, nodeWF n)
    (hpost : hasNode e "Post" (postKey it.post_id)) :
    runPlatformStmt (graphUnion s e) it = graphUnion s (runPlatformStmt e it) := by
  unfold runPlatformStmt
  have hmerge : mergeNode (graphUnion s e) "Platform" (platformKey it.platform)
      (fun n => { n with name := some it.platform })
      = graphUnion s (mergeNode e "Platform" (platformKey it.platform)
          (fun n => { n with name := some it.platform })) := by
    apply mergeNode_union s e _ _ _ hws hwe
    · intro n
      rfl
    · intro n hwf hid
      obtain ⟨h1, h3, h4, h5, h6⟩ := nodeWF_id_platform hwf hid
      refine ⟨h1, ?_⟩
      cases n with
      | mk nid nlbl nname ntext nsent nscore nent =>
        simp only at h1 h3 h4 h5 h6 hid
        subst h1
        subst h3
        subst h4
        subst h5
        subst h6
        subst hid
        rfl
  rw [hmerge]
  apply guardedRelPost_union
  · apply mergeNode_wf _ _ _ _ hwe
    · intro n hwf hlbl hid
      right
      right
      left
      obtain ⟨_, h3, h4, h5, h6⟩ := nodeWF_id_platform hwf hid
      exact ⟨hlbl, ⟨it.platform, hid⟩, h3, h4, h5, h6⟩
    · right
      right
      left
      exact ⟨rfl, ⟨it.platform, rfl⟩, rfl, rfl, rfl, rfl⟩
  · apply hasNode_mergeNode_mono
    · intro n
      rfl
    · intro n
      rfl
    · exact hpost

lemma runPlatformStmt_wf (e : N4jState Score) (it : PostAnalysis Score)
    (hwe : ∀ n ∈ e.nodes, nodeWF n) :
    ∀ n ∈ (runPlatformStmt e it).nodes, nodeWF n := by
  unfold runPlatformStmt
  apply guardedRelPost_wf
  apply mergeNode_wf _ _ _ _ hwe
  · intro n hwf hlbl hid
    right
    right
    left
    obtain ⟨_, h3, h4, h5, h6⟩ := nodeWF_id_platform hwf hid
    exact ⟨hlbl, ⟨it.platform, hid⟩, h3, h4, h5, h6⟩
  · right
    right
    left
    exact ⟨rfl, ⟨it.platform, rfl⟩, rfl, rfl, rfl, rfl⟩

lemma runPlatformStmt_hasPost (e : N4jState Score) (it : PostAnalysis Score)
    (hpost : hasNode e "Post" (postKey it.post_id)) :
    hasNode (runPlatformStmt e it) "Post" (postKey it.post_id) := by
  unfold runPlatformStmt
  apply guardedRelPost_hasNode
  apply hasNode_mergeNode_mono
  · intro n
    rfl
  · intro n
    rfl
  · exact hpost

lemma runEntityStmt_union (s e : N4jState Score) (pid : String) (ent : NEREntity)
    (hws : ∀ n ∈ s.nodes, nodeWF n) (hwe : ∀ n ∈ e.nodes, nodeWF n)
    (hpost : hasNode e "Post" (postKey pid)) :
    runEntityStmt (graphUnion s e) pid ent = graphUnion s (runEntityStmt e pid ent) := by
  unfold runEntityStmt
  have hmerge : mergeNode (graphUnion s e) "Entity" (entityKey ent.label ent.text)
      (fun n => { n with text := some ent.text, entLabel := some ent.label })
      = graphUnion s (mergeNode e "Entity" (entityKey ent.label ent.text)
          (fun n => { n with text := some ent.text, entLabel := some ent.label })) := by
    apply mergeNode_union s e _ _ _ hws hwe
    · intro n
      rfl
    · intro n hwf hid
      obtain ⟨h1, h3, h4, h5⟩ := nodeWF_id_entity hwf hid
      refine ⟨h1, ?_⟩
      cases n with
      | mk nid nlbl nname ntext nsent nscore nent =>
        simp only at h1 h3 h4 h5 hid
        subst h1
        subst h3
        subst h4
        subst h5
        subst hid
        rfl
  rw [hmerge]
  apply guardedRelPost_union
  · apply mergeNode_wf _ _ _ _ hwe
    · intro n hwf hlbl hid
      right
      right
      right
      obtain ⟨_, h3, h4, h5⟩ := nodeWF_id_entity hwf hid
      exact ⟨hlbl, ⟨ent.label, ent.text, hid⟩, h3, h4, h5⟩
    · right
      right
      right
      exact ⟨rfl, ⟨ent.label, ent.text, rfl⟩, rfl, rfl, rfl⟩
  · apply hasNode_mergeNode_mono
    · intro n
      rfl
    · intro n
      rfl
    · exact hpost

lemma runEntityStmt_wf (e : N4jState Score) (pid : String) (ent : NEREntity)
    (hwe : ∀ n ∈ e.nodes, nodeWF n) :
    ∀ n ∈ (runEntityStmt e pid ent).nodes, nodeWF n := by
  unfold runEntityStmt
  apply guardedRelPost_wf
  apply mergeNode_wf _ _ _ _ hwe
  · intro n hwf hlbl hid
    right
    right
    right
    obtain ⟨_, h3, h4, h5⟩ := nodeWF_id_entity hwf hid
    exact ⟨hlbl, ⟨ent.label, ent.text, hid⟩, h3, h4, h5⟩
  · right
    right
    right
    exact ⟨rfl, ⟨ent.label, ent.text, rfl⟩, rfl, rfl, rfl⟩

lemma runEntityStmt_hasPost (e : N4jState Score) (pid : String) (ent : NEREntity)
    (hpost : hasNode e "Post" (postKey pid)) :
    hasNode (runEntityStmt e pid ent) "Post" (postKey pid) := by
  unfold runEntityStmt
  apply guardedRelPost_hasNode
  apply hasNode_mergeNode_mono
  · intro n
    rfl
  · intro n
    rfl
  · exact hpost

lemma entityFold_union (pid : String) (ents : List NEREntity) :
    ∀ (s e : N4jState Score), (∀ n ∈ s.nodes, nodeWF n) → (∀ n ∈ e.nodes, nodeWF n) →
      hasNode e "Post" (postKey pid) →
      ents.foldl (fun st e0 => runEntityStmt st pid e0) (graphUnion s e)
        = graphUnion s (ents.foldl (fun st e0 => runEntityStmt st pid e0) e) := by
  induction ents with
  | nil => intro s e _ _ _; rfl
  | cons e0 es ih =>
    intro s e hws hwe hpost
    rw [List.foldl_cons, List.foldl_cons, runEntityStmt_union s e pid e0 hws hwe hpost]
    exact ih s (runEntityStmt e pid e0) hws (runEntityStmt_wf e pid e0 hwe)
      (runEntityStmt_hasPost e pid e0 hpost)

lemma entityFold_wf (pid : String) (ents : List NEREntity) :
    ∀ e : N4jState Score, (∀ n ∈ e.nodes, nodeWF n) →
      ∀ n ∈ (ents.foldl (fun st e0 => runEntityStmt st pid e0) e).nodes, nodeWF n := by
  induction ents with
  | nil => intro e hwe; exact hwe
  | cons e0 es ih =>
    intro e hwe
    rw [List.foldl_cons]
    exact ih (runEntityStmt e pid e0) (runEntityStmt_wf e pid e0 hwe)

lemma applyItem_union (s e : N4jState Score) (it : PostAnalysis Score)
    (hws : ∀ n ∈ s.nodes, nodeWF n) (hwe : ∀ n ∈ e.nodes, nodeWF n) :
    applyItem (graphUnion s e) it = graphUnion s (applyItem e it) := by
  unfold applyItem
  rw [runPostStmt_union s e it hws hwe]
  have hwe1 := runPostStmt_wf e it hwe
  have hpost1 := runPostStmt_hasPost e it
  rw [runUserStmt_union s (runPostStmt e it) it hws hwe1 hpost1]
  have hwe2 := runUserStmt_wf (runPostStmt e it) it hwe1
  have hpost2 := runUserStmt_hasPost (runPostStmt e it) it hpost1
  rw [runPlatformStmt_union s (runUserStmt (runPostStmt e it) it) it hws hwe2 hpost2]
  have hwe3 := runPlatformStmt_wf (runUserStmt (runPostStmt e it) it) it hwe2
  have hpost3 := runPlatformStmt_hasPost (runUserStmt (runPostStmt e it) it) it hpost2
  exact entityFold_union it.post_id it.entities s _ hws hwe3 hpost3

lemma applyItem_wf (e : N4jState Score) (it : PostAnalysis Score)
    (hwe : ∀ n ∈ e.nodes, nodeWF n) :
    ∀ n ∈ (applyItem e it).nodes, nodeWF n := by
  unfold applyItem
  apply entityFold_wf
  exact runPlatformStmt_wf _ it (runUserStmt_wf _ it (runPostStmt_wf _ it hwe))

lemma ingest_union (items : List (PostAnalysis Score)) :
    ∀ (s e : N4jState Score), (∀ n ∈ s.nodes, nodeWF n) → (∀ n ∈ e.nodes, nodeWF n) →
      items.foldl applyItem (graphUnion s e) = graphUnion s (items.foldl applyItem e) := by
  induction items with
  | nil => intro s e _ _; rfl
  | cons it its ih =>
    intro s e hws hwe
    rw [List.foldl_cons, applyItem_union s e it hws hwe, List.foldl_cons]
    exact ih s (applyItem e it) hws (applyItem_wf e it hwe)

lemma runPostStmt_pairwise (e : N4jState Score) (it : PostAnalysis Score)
    (hids : e.nodes.Pairwise (fun a b => a.id ≠ b.id))
    (hwe : ∀ n ∈ e.nodes, nodeWF n) :
    (runPostStmt e it).nodes.Pairwise (fun a b => a.id ≠ b.id) := by
  unfold runPostStmt
  exact mergeNode_pairwise _ _ _ _ hids hwe (fun n => rfl)
    (fun n ha hb => (nodeWF_id_post ha hb).1)

lemma runUserStmt_pairwise (e : N4jState Score) (it : PostAnalysis Score)
    (hids : e.nodes.Pairwise (fun a b => a.id ≠ b.id))
    (hwe : ∀ n ∈ e.nodes, nodeWF n) :
    (runUserStmt e it).nodes.Pairwise (fun a b => a.id ≠ b.id) := by
  unfold runUserStmt
  rw [guardedRelPost_nodes]
  exact mergeNode_pairwise _ _ _ _ hids hwe (fun n => rfl)
    (fun n ha hb => (nodeWF_id_user ha hb).1)

lemma runPlatformStmt_pairwise (e : N4jState Score) (it : PostAnalysis Score)
    (hids : e.nodes.Pairwise (fun a b => a.id ≠ b.id))
    (hwe : ∀ n ∈ e.nodes, nodeWF n) :
    (runPlatformStmt e it).nodes.Pairwise (fun a b => a.id ≠ b.id) := by
  unfold runPlatformStmt
  rw [guardedRelPost_nodes]
  exact mergeNode_pairwise _ _ _ _ hids hwe (fun n => rfl)
    (fun n ha hb => (nodeWF_id_platform ha hb).1)

lemma runEntityStmt_pairwise (e : N4jState Score) (pid : String) (ent : NEREntity)
    (hids : e.nodes.Pairwise (fun a b => a.id ≠ b.id))
    (hwe : ∀ n ∈ e.nodes, nodeWF n) :
    (runEntityStmt e pid ent).nodes.Pairwise (fun a b => a.id ≠ b.id) := by
  unfold runEntityStmt
  rw [guardedRelPost_nodes]
  exact mergeNode_pairwise _ _ _ _ hids hwe (fun n => rfl)
    (fun n ha hb => (nodeWF_id_entity ha hb).1)

lemma entityFold_stateWF (pid : String) (ents : List NEREntity) :
    ∀ e : N4jState Score, stateWF e →
      stateWF (ents.foldl (fun st e0 => runEntityStmt st pid e0) e) := by
  induction ents with
  | nil => intro e he; exact he
  | cons e0 es ih =>
    intro e he
    rw [List.foldl_cons]
    exact ih (runEntityStmt e pid e0)
      ⟨runEntityStmt_pairwise e pid e0 he.1 he.2, runEntityStmt_wf e pid e0 he.2⟩

lemma applyItem_stateWF (e : N4jState Score) (it : PostAnalysis Score)
    (he : stateWF e) : stateWF (applyItem e it) := by
  unfold applyItem
  apply entityFold_stateWF
  have h1 : stateWF (runPostStmt e it) :=
    ⟨runPostStmt_pairwise e it he.1 he.2, runPostStmt_wf e it he.2⟩
  have h2 : stateWF (runUserStmt (runPostStmt e it) it) :=
    ⟨runUserStmt_pairwise _ it h1.1 h1.2, runUserStmt_wf _ it h1.2⟩
  exact ⟨runPlatformStmt_pairwise _ it h2.1 h2.2, runPlatformStmt_wf _ it h2.2⟩

lemma ingest_stateWF (items : List (PostAnalysis Score)) :
    ∀ s : N4jState Score, stateWF s → stateWF (items.foldl applyItem s) := by
  induction items with
  | nil => intro s hs; exact hs
  | cons it its ih =>
    intro s hs
    rw [List.foldl_cons]
    exact ih (applyItem s it) (applyItem_stateWF s it hs)

lemma emptyState_stateWF : stateWF (emptyState : N4jState Score) := by
  constructor
  · exact List.Pairwise.nil
  · intro n hn
    cases hn

/-- C3: for any two batches A and B, ingesting A (either mode) and then B
in replace mode yields exactly the graph built from B alone; ingesting B
in accumulate mode yields the right-biased union of A's graph and B's
graph, and deletes nothing — every node id and every relationship of A's
graph is still present afterwards. -/
theorem replace_accumulate_semantics {S : Type} (A B : AnalysisResponse S) (modeA : Bool) :
    build_knowledge_graph (build_knowledge_graph emptyState A modeA) B true
      = build_knowledge_graph emptyState B true
  ∧ build_knowledge_graph (build_knowledge_graph emptyState A modeA) B false
      = graphUnion (build_knowledge_graph emptyState A modeA)
          (build_knowledge_graph emptyState B false)
  ∧ (∀ n ∈ (build_knowledge_graph emptyState A modeA).nodes,
      ∃ n2 ∈ (build_knowledge_graph (build_knowledge_graph emptyState A modeA) B false).nodes,
        n2.id = n.id)
  ∧ (∀ r ∈ (build_knowledge_graph emptyState A modeA).rels,
      r ∈ (build_knowledge_graph (build_knowledge_graph emptyState A modeA) B false).rels) := by
  have hSA : stateWF (build_knowledge_graph emptyState A modeA) := by
    unfold build_knowledge_graph
    apply ingest_stateWF
    cases modeA <;> exact emptyState_stateWF
  have hacc : build_knowledge_graph (build_knowledge_graph emptyState A modeA) B false
      = graphUnion (build_knowledge_graph emptyState A modeA)
          (build_knowledge_graph emptyState B false) := by
    show B.items.foldl applyItem (build_knowledge_graph emptyState A modeA)
      = graphUnion (build_knowledge_graph emptyState A modeA)
          (B.items.foldl applyItem emptyState)
    have h0 := ingest_union B.items
      (build_knowledge_graph emptyState A modeA) emptyState hSA.2
      (by intro n hn; cases hn)
    rw [graphUnion_empty_right] at h0
    exact h0
  refine ⟨rfl, hacc, ?_, ?_⟩
  · intro n hn
    rw [hacc]
    refine ⟨overrideNode (build_knowledge_graph emptyState B false).nodes n, ?_, ?_⟩
    · rw [graphUnion_nodes]
      exact List.mem_append_left _ (List.mem_map_of_mem _ hn)
    · exact overrideNode_id _ n
  · intro r hr
    rw [hacc, graphUnion_rels]
    exact List.mem_append_left _ hr

/-- C4: accumulate-mode ingestion is idempotent — re-ingesting the same
batch leaves the store exactly unchanged (upserts update in place), so the
snapshot node count and edge count equal those after a single ingestion. -/
theorem accumulate_idempotent {S : Type} (X : AnalysisResponse S) :
    build_knowledge_graph (build_knowledge_graph emptyState X false) X false
      = build_knowledge_graph emptyState X false
  ∧ (get_graph_response
        (build_knowledge_graph (build_knowledge_graph emptyState X false) X false)).nodes.length
      = (get_graph_response (build_knowledge_graph emptyState X false)).nodes.length
  ∧ (get_graph_response
        (build_knowledge_graph (build_knowledge_graph emptyState X false) X false)).edges.length
      = (get_graph_response (build_knowledge_graph emptyState X false)).edges.length := by
  have hSX : stateWF (build_knowledge_graph emptyState X false) := by
    unfold build_knowledge_graph
    exact ingest_stateWF X.items emptyState emptyState_stateWF
  have hmain : build_knowledge_graph (build_knowledge_graph emptyState X false) X false
      = build_knowledge_graph emptyState X false := by
    show X.items.foldl applyItem (build_knowledge_graph emptyState X false)
      = build_knowledge_graph emptyState X false
    have h0 := ingest_union X.items
      (build_knowledge_graph emptyState X false) emptyState hSX.2
      (by intro n hn; cases hn)
    rw [graphUnion_empty_right] at h0
    rw [h0]
    show graphUnion (build_knowledge_graph emptyState X false)
        (build_knowledge_graph emptyState X false)
      = build_knowledge_graph emptyState X false
    exact graphUnion_self _ hSX.1
  exact ⟨hmain, by rw [hmain], by rw [hmain]⟩

end Neo4jGraphService
